import Mathlib

/-!
Verification of the subtitle-synchronization core of the Qwen-ASR-GUI frontend
(`frontend/src/pages/SubSync.jsx`).

The JavaScript source is shallowly embedded:
* a `Sentence` record keeps the fields the core reads and writes
  (`start`, `end`, `text`, `original_text`); an absent (`undefined`)
  `original_text` is `Option.none`;
* JavaScript numbers holding media times and percentages become `ℚ`;
* array indices become `Int` where the source can produce `-1` sentinels,
  `Nat` where it cannot;
* the `while (lo <= hi)` binary-search loop becomes a structurally recursive
  function with an explicit fuel argument; the fuel used by the embedding
  (`sentences.length`) is proved sufficient, so the fuel-exhaustion branch is
  never taken on the arguments the program uses;
* React `setState(prev => ...)` updaters become pure functions on the state.
-/

/-- One timestamped text unit of the Sentence Store, as used by SubSync.jsx:
`start`/`end` in seconds, the displayed `text`, and the optional
`original_text` baseline (absent = JavaScript `undefined`). -/
structure Sentence where
  start : ℚ
  «end» : ℚ
  text : String
  original_text : Option String := none
deriving DecidableEq, Repr, Inhabited

/-- The `while (lo <= hi)` loop of `findActiveSubtitle` (SubSync.jsx lines
37-45), with explicit fuel.  JavaScript `(lo + hi) >> 1` on the in-range
values reached here is floor division by two, which is `Int` division `/ 2`.
Out-of-range indexing cannot occur on the arguments used by
`findActiveSubtitle` (proved below), so `List.getD` with a default is safe. -/
def bsLoop (sentences : List Sentence) (currentTime : ℚ) :
    Nat → Int → Int → Int → Int
  | 0, _, _, result => result
  | fuel + 1, lo, hi, result =>
    if lo ≤ hi then
      let mid := (lo + hi) / 2
      if (sentences.getD mid.toNat default).start ≤ currentTime then
        bsLoop sentences currentTime fuel (mid + 1) hi mid
      else
        bsLoop sentences currentTime fuel lo (mid - 1) result
    else result

/-- `findActiveSubtitle(sentences, currentTime)` (SubSync.jsx lines 33-54):
binary search for the subtitle index active at `currentTime`, then the
gap check on `sentences[result].end` whose two branches both return
`result`.  A `null`/empty array returns `-1`. -/
def findActiveSubtitle (sentences : List Sentence) (currentTime : ℚ) : Int :=
  if sentences.length = 0 then -1
  else
    let result := bsLoop sentences currentTime sentences.length 0
      ((sentences.length : Int) - 1) (-1)
    if 0 ≤ result ∧ (sentences.getD result.toNat default).«end» < currentTime then
      if result + 1 < (sentences.length : Int) ∧
          currentTime < (sentences.getD (result + 1).toNat default).start then
        result
      else result
    else result

/-- The body of `syncSubtitle` (SubSync.jsx lines 386-395): read the playback
position, subtract the user offset, resolve the index, and keep the old
active index when unchanged.  Returns the new active index. -/
def syncSubtitle (sentences : List Sentence) (currentTime offset : ℚ)
    (activeIndex : Int) : Int :=
  let idx := findActiveSubtitle sentences (currentTime - offset)
  if idx ≠ activeIndex then idx else activeIndex

/-- Modelled from the spec: the Sentence sequence is "ordered by
non-decreasing `start`" (spec §3, §4.3), stated on adjacent entries. -/
def SortedByStart (ss : List Sentence) : Prop :=
  ∀ i, i < ss.length - 1 →
    (ss.getD i default).start ≤ (ss.getD (i + 1) default).start

/-- Modelled from the spec: `r` is "the largest index `i` such that
`sentence[i].start ≤ t`; if no such index exists, result is none" (-1)
(spec §4.3). -/
def AlignSpec (ss : List Sentence) (t : ℚ) (r : Int) : Prop :=
  (r = -1 ∧ ∀ i, i < ss.length → ¬ (ss.getD i default).start ≤ t) ∨
  (0 ≤ r ∧ r < (ss.length : Int) ∧ (ss.getD r.toNat default).start ≤ t ∧
    ∀ i, i < ss.length → (ss.getD i default).start ≤ t → (i : Int) ≤ r)

/-- Modelled from the spec: an executable form of "largest index `i` with
`sentence[i].start ≤ t`, else -1", used as the plain reference definition the
binary search is compared against. -/
def largestStartLE (ss : List Sentence) (t : ℚ) : Int :=
  match ((List.range ss.length).filter
      (fun i => (ss.getD i default).start ≤ t)).max? with
  | some i => (i : Int)
  | none => -1

instance (ss : List Sentence) : Decidable (SortedByStart ss) := by
  unfold SortedByStart; infer_instance

instance (ss : List Sentence) (t : ℚ) (r : Int) : Decidable (AlignSpec ss t r) := by
  unfold AlignSpec; infer_instance

lemma sortedByStart_mono {ss : List Sentence} (hs : SortedByStart ss) :
    ∀ j, j < ss.length → ∀ i, i ≤ j →
      (ss.getD i default).start ≤ (ss.getD j default).start := by
  intro j
  induction j with
  | zero => intro _ i hij; interval_cases i; exact le_refl _
  | succ j ih =>
    intro hj i hij
    rcases Nat.eq_or_lt_of_le hij with rfl | hlt
    · exact le_refl _
    · exact le_trans (ih (by omega) i (by omega)) (hs j (by omega))

lemma alignSpec_of_exit (ss : List Sentence) (t : ℚ) (lo hi result : Int)
    (hexit : hi < lo) (hlo2 : lo ≤ hi + 1) (hhi : hi < (ss.length : Int))
    (hinv1 : (result = -1 ∧ ∀ i : ℕ, (i : Int) < lo → ¬ (ss.getD i default).start ≤ t) ∨
      (result = lo - 1 ∧ 0 ≤ result ∧ (ss.getD result.toNat default).start ≤ t))
    (hinv2 : ∀ i : ℕ, hi < (i : Int) → i < ss.length → ¬ (ss.getD i default).start ≤ t) :
    AlignSpec ss t result := by
  rcases hinv1 with ⟨hr, hbelow⟩ | ⟨hr, hr0, hP⟩
  · left
    refine ⟨hr, fun i hilen => ?_⟩
    by_cases h : (i : Int) < lo
    · exact hbelow i h
    · exact hinv2 i (by omega) hilen
  · right
    refine ⟨hr0, by omega, hP, ?_⟩
    intro i hilen hPi
    by_contra hgt
    exact hinv2 i (by omega) hilen hPi

lemma bsLoop_spec (ss : List Sentence) (t : ℚ) (hs : SortedByStart ss) :
    ∀ fuel : ℕ, ∀ lo hi result : Int,
      (hi + 1 - lo).toNat ≤ fuel →
      0 ≤ lo → lo ≤ hi + 1 → hi < (ss.length : Int) →
      ((result = -1 ∧ ∀ i : ℕ, (i : Int) < lo → ¬ (ss.getD i default).start ≤ t) ∨
        (result = lo - 1 ∧ 0 ≤ result ∧ (ss.getD result.toNat default).start ≤ t)) →
      (∀ i : ℕ, hi < (i : Int) → i < ss.length → ¬ (ss.getD i default).start ≤ t) →
      AlignSpec ss t (bsLoop ss t fuel lo hi result) := by
  intro fuel
  induction fuel with
  | zero =>
    intro lo hi result hfuel hlo hlo2 hhi hinv1 hinv2
    exact alignSpec_of_exit ss t lo hi result (by omega) hlo2 hhi hinv1 hinv2
  | succ fuel ih =>
    intro lo hi result hfuel hlo hlo2 hhi hinv1 hinv2
    by_cases hcond : lo ≤ hi
    · rw [bsLoop, if_pos hcond]
      have hmid1 : lo ≤ (lo + hi) / 2 := by omega
      have hmid2 : (lo + hi) / 2 ≤ hi := by omega
      by_cases hP : (ss.getD ((lo + hi) / 2).toNat default).start ≤ t
      · rw [if_pos hP]
        refine ih ((lo + hi) / 2 + 1) hi ((lo + hi) / 2) (by omega) (by omega)
          (by omega) hhi (Or.inr ⟨by omega, by omega, hP⟩) hinv2
      · rw [if_neg hP]
        refine ih lo ((lo + hi) / 2 - 1) result (by omega) hlo (by omega)
          (by omega) hinv1 ?_
        intro i hi1 hi2
        intro hPi
        have hml : ((lo + hi) / 2).toNat ≤ i := by omega
        exact hP (le_trans (sortedByStart_mono hs i hi2 ((lo + hi) / 2).toNat hml) hPi)
    · rw [bsLoop, if_neg hcond]
      exact alignSpec_of_exit ss t lo hi result (by omega) hlo2 hhi hinv1 hinv2

lemma findActiveSubtitle_eq_bsLoop (ss : List Sentence) (t : ℚ) :
    findActiveSubtitle ss t =
      if ss.length = 0 then -1
      else bsLoop ss t ss.length 0 ((ss.length : Int) - 1) (-1) := by
  simp only [findActiveSubtitle]
  split_ifs <;> rfl

lemma findActiveSubtitle_alignSpec (ss : List Sentence) (t : ℚ)
    (hs : SortedByStart ss) : AlignSpec ss t (findActiveSubtitle ss t) := by
  rw [findActiveSubtitle_eq_bsLoop]
  by_cases h0 : ss.length = 0
  · rw [if_pos h0]
    exact Or.inl ⟨rfl, fun i hi => by omega⟩
  · rw [if_neg h0]
    refine bsLoop_spec ss t hs ss.length 0 ((ss.length : Int) - 1) (-1)
      (by omega) (by omega) (by omega) (by omega)
      (Or.inl ⟨rfl, fun i hi => by omega⟩) (fun i hi1 hi2 => by omega)

lemma largestStartLE_alignSpec (ss : List Sentence) (t : ℚ) :
    AlignSpec ss t (largestStartLE ss t) := by
  unfold largestStartLE
  split
  case h_1 m hmax =>
    obtain ⟨hmem, hmaxle⟩ := (List.max?_eq_some_iff (fun a => Nat.le_refl a)
      (fun a b => max_choice a b) (fun a b c => max_le_iff)).mp hmax
    rw [List.mem_filter, List.mem_range] at hmem
    obtain ⟨hmlt, hmP⟩ := hmem
    right
    refine ⟨by omega, by exact_mod_cast hmlt, ?_, ?_⟩
    · simpa using of_decide_eq_true hmP
    · intro i hilen hPi
      have hile : i ≤ m := by
        refine hmaxle i ?_
        rw [List.mem_filter, List.mem_range]
        exact ⟨hilen, decide_eq_true hPi⟩
      exact_mod_cast hile
  case h_2 hmax =>
    have hl := List.max?_eq_none_iff.mp hmax
    left
    refine ⟨rfl, fun i hilen hPi => ?_⟩
    have hmem : i ∈ (List.range ss.length).filter
        (fun i => decide ((ss.getD i default).start ≤ t)) := by
      rw [List.mem_filter, List.mem_range]
      exact ⟨hilen, decide_eq_true hPi⟩
    rw [hl] at hmem
    simp at hmem

lemma alignSpec_unique {ss : List Sentence} {t : ℚ} {r r' : Int}
    (h1 : AlignSpec ss t r) (h2 : AlignSpec ss t r') : r = r' := by
  rcases h1 with ⟨e1, hn1⟩ | ⟨ha1, hb1, hc1, hd1⟩ <;>
    rcases h2 with ⟨e2, hn2⟩ | ⟨ha2, hb2, hc2, hd2⟩
  · rw [e1, e2]
  · exact absurd hc2 (hn1 r'.toNat (by omega))
  · exact absurd hc1 (hn2 r.toNat (by omega))
  · have hle1 : (r.toNat : Int) ≤ r' := hd2 r.toNat (by omega) hc1
    have hle2 : (r'.toNat : Int) ≤ r := hd1 r'.toNat (by omega) hc2
    omega

lemma start_getD_eq_of_map_eq {ss ss' : List Sentence}
    (h : ss.map Sentence.start = ss'.map Sentence.start) (i : ℕ) :
    (ss.getD i default).start = (ss'.getD i default).start := by
  have h1 : ss[i]?.map Sentence.start = ss'[i]?.map Sentence.start := by
    rw [← List.getElem?_map, ← List.getElem?_map, h]
  rw [List.getD_eq_getElem?_getD, List.getD_eq_getElem?_getD]
  cases hc : ss[i]? with
  | none =>
    cases hc' : ss'[i]? with
    | none => rfl
    | some b => rw [hc, hc'] at h1; simp at h1
  | some a =>
    cases hc' : ss'[i]? with
    | none => rw [hc, hc'] at h1; simp at h1
    | some b =>
      rw [hc, hc'] at h1
      simpa using h1

lemma length_eq_of_map_start_eq {ss ss' : List Sentence}
    (h : ss.map Sentence.start = ss'.map Sentence.start) :
    ss.length = ss'.length := by
  have := congrArg List.length h
  simpa using this

lemma bsLoop_congr {ss ss' : List Sentence} (t : ℚ)
    (h : ss.map Sentence.start = ss'.map Sentence.start) :
    ∀ fuel : ℕ, ∀ lo hi result : Int,
      bsLoop ss t fuel lo hi result = bsLoop ss' t fuel lo hi result := by
  intro fuel
  induction fuel with
  | zero => intro lo hi result; rfl
  | succ fuel ih =>
    intro lo hi result
    rw [bsLoop, bsLoop]
    by_cases hcond : lo ≤ hi
    · rw [if_pos hcond, if_pos hcond]
      simp only [start_getD_eq_of_map_eq h]
      split_ifs with hP
      · exact ih _ _ _
      · exact ih _ _ _
    · rw [if_neg hcond, if_neg hcond]

lemma findActiveSubtitle_congr {ss ss' : List Sentence} (t : ℚ)
    (h : ss.map Sentence.start = ss'.map Sentence.start) :
    findActiveSubtitle ss t = findActiveSubtitle ss' t := by
  rw [findActiveSubtitle_eq_bsLoop, findActiveSubtitle_eq_bsLoop,
    length_eq_of_map_start_eq h]
  by_cases h0 : ss'.length = 0
  · rw [if_pos h0, if_pos h0]
  · rw [if_neg h0, if_neg h0]
    exact bsLoop_congr t h _ _ _ _

/-- The example sentence list of the spec's Alignment-correctness property:
`[{0,2,"A"},{2,5,"B"},{6,8,"C"}]`. -/
def exSentences : List Sentence :=
  [⟨0, 2, "A", none⟩, ⟨2, 5, "B", none⟩, ⟨6, 8, "C", none⟩]

/-- The same timeline with different `end` fields (used to exhibit that the
engine never reads `end` in a way that changes its result). -/
def exSentencesAltEnd : List Sentence :=
  [⟨0, 1, "A", none⟩, ⟨2, 3, "B", none⟩, ⟨6, 100, "C", none⟩]

/-- C1: for every sentence sequence ordered by non-decreasing `start` and
every query time `t`, `findActiveSubtitle` returns the largest index `i`
with `sentence[i].start ≤ t`, and `-1` when no such index exists
(`AlignSpec`).  In particular, when `t` exceeds `sentence[i].end` but no
later sentence has `start ≤ t`, the largest-index characterization still
selects `i`, so the engine keeps showing the earlier sentence during gaps. -/
theorem findActiveSubtitle_returns_largest_start_le
    (ss : List Sentence) (t : ℚ) (hs : SortedByStart ss) :
    AlignSpec ss t (findActiveSubtitle ss t) :=
  findActiveSubtitle_alignSpec ss t hs

/-- Witness for C1: the spec's example sentences are sorted, and at the gap
query `t = 5.5` the result satisfies the largest-index characterization
(concretely the result is index 1, sentence "B"). -/
theorem findActiveSubtitle_returns_largest_start_le_witness :
    SortedByStart exSentences ∧
      AlignSpec exSentences (Rat.mk' 11 2)
        (findActiveSubtitle exSentences (Rat.mk' 11 2)) ∧
      findActiveSubtitle exSentences (Rat.mk' 11 2) = 1 :=
  ⟨by decide,
    findActiveSubtitle_returns_largest_start_le exSentences (Rat.mk' 11 2) (by decide),
    by decide⟩

/-- C7: on every sync tick the playback position has the signed user offset
subtracted before being fed to the alignment engine: the resolved index
equals `findActiveSubtitle` at `currentTime - offset`, for every previous
active index; and with offset `+1`, querying `t = 2` resolves exactly as
querying `t = 1` against the unshifted timeline (offset 0). -/
theorem syncSubtitle_subtracts_offset_before_alignment :
    (∀ (ss : List Sentence) (currentTime offset : ℚ) (activeIndex : Int),
        syncSubtitle ss currentTime offset activeIndex =
          findActiveSubtitle ss (currentTime - offset)) ∧
    (∀ (ss : List Sentence) (activeIndex : Int),
        syncSubtitle ss 2 1 activeIndex = syncSubtitle ss 1 0 activeIndex) := by
  have hmain : ∀ (ss : List Sentence) (currentTime offset : ℚ) (activeIndex : Int),
      syncSubtitle ss currentTime offset activeIndex =
        findActiveSubtitle ss (currentTime - offset) := by
    intro ss ct off a
    simp only [syncSubtitle]
    split_ifs with h
    · rfl
    · exact (not_not.mp h).symm
  refine ⟨hmain, fun ss a => ?_⟩
  rw [hmain, hmain]
  norm_num

/-- C10: the result of `findActiveSubtitle` is fully determined by the
sentences' `start` fields and the query time.  First, the post-binary-search
gap check never changes the returned index: the function equals the bare
binary-search result.  Second, two stores with identical `start` sequences
(`end` and text fields arbitrary) always resolve identically.  Third, on a
store sorted by `start` the function is extensionally equal to the plain
"largest index with `start ≤ t`, else -1" definition `largestStartLE`. -/
theorem findActiveSubtitle_determined_by_starts :
    (∀ (ss : List Sentence) (t : ℚ),
        findActiveSubtitle ss t =
          if ss.length = 0 then -1
          else bsLoop ss t ss.length 0 ((ss.length : Int) - 1) (-1)) ∧
    (∀ (ss ss' : List Sentence) (t : ℚ),
        ss.map Sentence.start = ss'.map Sentence.start →
        findActiveSubtitle ss t = findActiveSubtitle ss' t) ∧
    (∀ (ss : List Sentence) (t : ℚ), SortedByStart ss →
        findActiveSubtitle ss t = largestStartLE ss t) :=
  ⟨findActiveSubtitle_eq_bsLoop,
    fun _ _ t h => findActiveSubtitle_congr t h,
    fun ss t hs =>
      alignSpec_unique (findActiveSubtitle_alignSpec ss t hs)
        (largestStartLE_alignSpec ss t)⟩

/-- Witness for C10: concrete stores with equal starts but different ends
resolve identically at `t = 6.5` (inside the old gap past "B"), and on the
spec's example the engine agrees with the plain largest-start definition. -/
theorem findActiveSubtitle_determined_by_starts_witness :
    exSentences.map Sentence.start = exSentencesAltEnd.map Sentence.start ∧
      findActiveSubtitle exSentences (Rat.mk' 13 2) =
        findActiveSubtitle exSentencesAltEnd (Rat.mk' 13 2) ∧
      SortedByStart exSentences ∧
      findActiveSubtitle exSentences (Rat.mk' 13 2) =
        largestStartLE exSentences (Rat.mk' 13 2) :=
  ⟨by decide,
    findActiveSubtitle_determined_by_starts.2.1 exSentences exSentencesAltEnd
      (Rat.mk' 13 2) (by decide),
    by decide,
    findActiveSubtitle_determined_by_starts.2.2 exSentences (Rat.mk' 13 2) (by decide)⟩

/-- One non-terminal refinement frame applied to the Sentence Store: the
`setSentences` updater of `handleLlmProcess` (SubSync.jsx lines 500-509).
`next[data.index] = { ...curr, original_text: curr.original_text !== undefined
? curr.original_text : curr.text, text: data.processed_text }`.  An
out-of-range `index` makes the JavaScript updater throw on reading
`curr.original_text`; the surrounding `try/catch` of the frame loop then
leaves the store unchanged, which the `none` branch mirrors. -/
def applyFrame (ss : List Sentence) (index : Nat) (processed_text : String) :
    List Sentence :=
  match ss[index]? with
  | none => ss
  | some curr =>
    ss.set index
      { curr with
        original_text := match curr.original_text with
          | some o => some o
          | none => some curr.text,
        text := processed_text }

/-- The `saveEdit` committer of a manual edit (SubSync.jsx lines 566-576):
if `original_text` is unset and the text actually changes, capture the
pre-edit text as `original_text`; in any case write `editValue` into
`text`. -/
def saveEdit (ss : List Sentence) (idx : Nat) (editValue : String) :
    List Sentence :=
  match ss[idx]? with
  | none => ss
  | some curr =>
    let curr' :=
      if curr.original_text = none ∧ curr.text ≠ editValue then
        { curr with original_text := some curr.text, text := editValue }
      else
        { curr with text := editValue }
    ss.set idx curr'

/-- The `handleRevertEdit` handler (SubSync.jsx lines 578-588): if
`original_text` is set, restore `text = original_text` and delete
`original_text`; otherwise leave the store unchanged. -/
def handleRevertEdit (ss : List Sentence) (idx : Nat) : List Sentence :=
  match ss[idx]? with
  | none => ss
  | some curr =>
    match curr.original_text with
    | none => ss
    | some o => ss.set idx { curr with text := o, original_text := none }

lemma list_set_self {α : Type} {l : List α} {i : Nat} {a : α}
    (ha : l[i]? = some a) : l.set i a = l := by
  have hi : i < l.length := by
    rcases List.getElem?_eq_some_iff.mp ha with ⟨h, _⟩
    exact h
  apply List.ext_getElem?
  intro j
  by_cases hj : i = j
  · subst hj
    rw [List.getElem?_set_self hi, ha]
  · rw [List.getElem?_set_ne hj]

lemma applyFrame_of_none {ss : List Sentence} {i : Nat} {p : String}
    (h : ss[i]? = none) : applyFrame ss i p = ss := by
  unfold applyFrame; rw [h]

lemma applyFrame_of_some {ss : List Sentence} {i : Nat} {p : String}
    {a : Sentence} (h : ss[i]? = some a) :
    applyFrame ss i p =
      ss.set i { a with
        original_text := match a.original_text with
          | some o => some o
          | none => some a.text,
        text := p } := by
  unfold applyFrame; rw [h]

lemma getElem?_applyFrame (ss : List Sentence) (i : Nat) (p : String) (k : Nat) :
    (applyFrame ss i p)[k]? =
      if k = i then
        ss[i]?.map (fun curr =>
          { curr with
            original_text := match curr.original_text with
              | some o => some o
              | none => some curr.text,
            text := p })
      else ss[k]? := by
  cases hc : ss[i]? with
  | none =>
    rw [applyFrame_of_none hc]
    by_cases hk : k = i
    · subst hk; rw [if_pos rfl, hc]; rfl
    · rw [if_neg hk]
  | some a =>
    have hlt : i < ss.length := (List.getElem?_eq_some_iff.mp hc).1
    rw [applyFrame_of_some hc]
    by_cases hk : k = i
    · subst hk; rw [if_pos rfl, List.getElem?_set_self hlt]; rfl
    · rw [if_neg hk, List.getElem?_set_ne (fun h => hk h.symm)]

/-- C2: a non-terminal refinement frame `{index, processed_text}` sets
`sentence[index].text` to `processed_text` and captures the pre-update text
into `original_text` only when `original_text` was not already set
(first-write-wins, expressed with `Option.getD`); consequently applying the
same frame twice yields exactly the same store as applying it once. -/
theorem applyFrame_first_write_wins_and_idempotent :
    (∀ (ss : List Sentence) (index : Nat) (p : String), index < ss.length →
        (applyFrame ss index p)[index]? =
          some { ss.getD index default with
            text := p,
            original_text :=
              some ((ss.getD index default).original_text.getD
                (ss.getD index default).text) }) ∧
    (∀ (ss : List Sentence) (index : Nat) (p : String),
        applyFrame (applyFrame ss index p) index p = applyFrame ss index p) := by
  constructor
  · intro ss index p h
    have ha : ss[index]? = some ss[index] := List.getElem?_eq_getElem h
    have hgd : ss.getD index default = ss[index] := by
      rw [List.getD_eq_getElem?_getD, ha]; rfl
    rw [getElem?_applyFrame, if_pos rfl, ha, hgd]
    cases ho : ss[index].original_text <;> simp [ho]
  · intro ss index p
    cases hc : ss[index]? with
    | none => rw [applyFrame_of_none hc, applyFrame_of_none hc]
    | some curr =>
      have hlt : index < ss.length := (List.getElem?_eq_some_iff.mp hc).1
      rw [applyFrame_of_some hc]
      rw [applyFrame_of_some (List.getElem?_set_self hlt), List.set_set]
      congr 1
      cases ho : curr.original_text <;> simp [ho]

/-- Witness for C2 at a concrete two-sentence store: the first application
captures the baseline, the second changes nothing. -/
theorem applyFrame_first_write_wins_and_idempotent_witness :
    (0 : Nat) < exSentences.length ∧
      (applyFrame exSentences 0 "A2")[0]? =
        some { exSentences.getD 0 default with
          text := "A2",
          original_text :=
            some ((exSentences.getD 0 default).original_text.getD
              (exSentences.getD 0 default).text) } ∧
      applyFrame (applyFrame exSentences 0 "A2") 0 "A2" =
        applyFrame exSentences 0 "A2" :=
  ⟨by decide,
    applyFrame_first_write_wins_and_idempotent.1 exSentences 0 "A2" (by decide),
    applyFrame_first_write_wins_and_idempotent.2 exSentences 0 "A2"⟩

/-- Commutation of refinement frames addressing distinct indices. -/
lemma applyFrame_comm (ss : List Sentence) (i j : Nat) (p q : String)
    (hij : i ≠ j) :
    applyFrame (applyFrame ss i p) j q = applyFrame (applyFrame ss j q) i p := by
  apply List.ext_getElem?
  intro k
  rw [getElem?_applyFrame, getElem?_applyFrame, getElem?_applyFrame,
    getElem?_applyFrame, getElem?_applyFrame, getElem?_applyFrame]
  by_cases hkj : k = j
  · subst hkj
    rw [if_pos rfl, if_neg hij.symm, if_pos rfl, if_neg hij.symm]
  · rw [if_neg hkj]
    by_cases hki : k = i
    · subst hki
      rw [if_pos rfl, if_pos rfl, if_neg hkj]
    · rw [if_neg hki, if_neg hki, if_neg hkj]

/-- C9: refinement patches with pairwise-distinct indices commute, and in
particular applying patches for indices in arrival order `[2,0,1]` produces
exactly the same Sentence Store as applying the same patches in order
`[0,1,2]`, for every store and all patch texts. -/
theorem applyFrame_order_independent :
    (∀ (ss : List Sentence) (i j : Nat) (p q : String), i ≠ j →
        applyFrame (applyFrame ss i p) j q = applyFrame (applyFrame ss j q) i p) ∧
    (∀ (ss : List Sentence) (t0 t1 t2 : String),
        applyFrame (applyFrame (applyFrame ss 2 t2) 0 t0) 1 t1 =
          applyFrame (applyFrame (applyFrame ss 0 t0) 1 t1) 2 t2) := by
  refine ⟨applyFrame_comm, fun ss t0 t1 t2 => ?_⟩
  rw [applyFrame_comm ss 2 0 t2 t0 (by omega),
    applyFrame_comm _ 2 1 t2 t1 (by omega)]

/-- Witness for C9: the out-of-order commutation at a concrete store and
concrete distinct indices. -/
theorem applyFrame_order_independent_witness :
    (0 : Nat) ≠ 1 ∧
      applyFrame (applyFrame exSentences 0 "x") 1 "y" =
        applyFrame (applyFrame exSentences 1 "y") 0 "x" ∧
      applyFrame (applyFrame (applyFrame exSentences 2 "c") 0 "a") 1 "b" =
        applyFrame (applyFrame (applyFrame exSentences 0 "a") 1 "b") 2 "c" :=
  ⟨by decide,
    applyFrame_order_independent.1 exSentences 0 1 "x" "y" (by decide),
    applyFrame_order_independent.2 exSentences "a" "b" "c"⟩

lemma saveEdit_of_some {ss : List Sentence} {idx : Nat} {v : String}
    {a : Sentence} (h : ss[idx]? = some a) :
    saveEdit ss idx v =
      ss.set idx
        (if a.original_text = none ∧ a.text ≠ v then
          { a with original_text := some a.text, text := v }
        else { a with text := v }) := by
  unfold saveEdit; rw [h]

lemma handleRevertEdit_of_baseline {ss : List Sentence} {idx : Nat}
    {a : Sentence} {o : String} (h : ss[idx]? = some a)
    (ho : a.original_text = some o) :
    handleRevertEdit ss idx = ss.set idx { a with text := o, original_text := none } := by
  simp only [handleRevertEdit, h, ho]

lemma handleRevertEdit_of_no_baseline {ss : List Sentence} {idx : Nat}
    {a : Sentence} (h : ss[idx]? = some a) (ho : a.original_text = none) :
    handleRevertEdit ss idx = ss := by
  simp only [handleRevertEdit, h, ho]

/-- C3 (amended): for every sentence whose `original_text` is not yet set,
committing a manual edit and then reverting restores the store exactly:
`text` returns byte-for-byte to its pre-edit value and `original_text` is
clear again. -/
theorem saveEdit_revert_round_trip_fresh_baseline :
    ∀ (ss : List Sentence) (idx : Nat) (v : String),
      idx < ss.length → (ss.getD idx default).original_text = none →
      handleRevertEdit (saveEdit ss idx v) idx = ss := by
  intro ss idx v h hbase
  have ha : ss[idx]? = some ss[idx] := List.getElem?_eq_getElem h
  have hgd : ss.getD idx default = ss[idx] := by
    rw [List.getD_eq_getElem?_getD, ha]; rfl
  rw [hgd] at hbase
  by_cases htv : ss[idx].text = v
  · rw [saveEdit_of_some ha, if_neg (by simp [htv])]
    rw [← htv]
    rw [show ({ ss[idx] with text := ss[idx].text } : Sentence) = ss[idx] from rfl]
    rw [list_set_self ha]
    exact handleRevertEdit_of_no_baseline ha hbase
  · rw [saveEdit_of_some ha, if_pos ⟨hbase, htv⟩]
    rw [handleRevertEdit_of_baseline (List.getElem?_set_self h) rfl]
    rw [List.set_set]
    have hrec : ({ { ss[idx] with original_text := some ss[idx].text, text := v }
        with text := ss[idx].text, original_text := none } : Sentence) = ss[idx] := by
      rw [← hbase]
    rw [hrec, list_set_self ha]

/-- Counterexample to C3 as stated: for a sentence whose `original_text` is
already set (baseline "Y", current text "Z"), editing to "X" and reverting
yields text "Y", not the pre-edit value "Z". -/
theorem saveEdit_revert_round_trip_counterexample :
    (([(⟨0, 1, "Z", some "Y"⟩ : Sentence)].getD 0 default).text = "Z") ∧
      handleRevertEdit (saveEdit [⟨0, 1, "Z", some "Y"⟩] 0 "X") 0 =
        [⟨0, 1, "Y", none⟩] ∧
      ("Y" : String) ≠ "Z" := by
  refine ⟨rfl, ?_, by decide⟩
  decide

/-- Witness for the amended C3 at a concrete store with a fresh baseline. -/
theorem saveEdit_revert_round_trip_fresh_baseline_witness :
    (0 : Nat) < exSentences.length ∧
      (exSentences.getD 0 default).original_text = none ∧
      handleRevertEdit (saveEdit exSentences 0 "X") 0 = exSentences :=
  ⟨by decide, by decide,
    saveEdit_revert_round_trip_fresh_baseline exSentences 0 "X" (by decide) (by decide)⟩

/-- The pieces of SubSync component state that gate the manual-edit entry
points and the LLM toolbar (SubSync.jsx lines 92-97, 969-993, 1024-1031).
`llmProgress = -1` means no refinement session is running; `0..100` is an
active session's progress sentinel.  `editingIndex = -1` means no row is
being edited. -/
structure EditorUI where
  llmProgress : Int
  llmModel : String
  editingIndex : Int
  editValue : String
deriving DecidableEq, Repr

/-- `startEdit(idx, currentText)` (SubSync.jsx lines 561-564): begin a manual
edit of row `idx`, seeding the edit buffer.  There is no guard of any kind. -/
def startEdit (ui : EditorUI) (idx : Int) (currentText : String) : EditorUI :=
  { ui with editingIndex := idx, editValue := currentText }

/-- The `onDoubleClick` handler of a subtitle row (SubSync.jsx line 1030):
`onDoubleClick={() => startEdit(i, s.text)}` — called unconditionally,
whatever `llmProgress` is. -/
def onSubtitleDoubleClick (ui : EditorUI) (i : Int) (s : Sentence) : EditorUI :=
  startEdit ui i s.text

/-- The `disabled` predicate of the run (執行) button
(SubSync.jsx line 971): `llmProgress >= 0 || !llmModel`. -/
def runButtonDisabled (ui : EditorUI) : Bool :=
  0 ≤ ui.llmProgress || ui.llmModel = ""

/-- The `disabled` predicate of the save (儲存) button
(SubSync.jsx line 990): `llmProgress >= 0`. -/
def saveButtonDisabled (ui : EditorUI) : Bool :=
  0 ≤ ui.llmProgress

/-- C5 evaluated at its failing input: in a state with an active refinement
session (`llmProgress = 0`, so the sentinel is non-negative) and no edit in
progress, the toolbar's run and save buttons are indeed disabled, but a
double-click on row 0 still begins a manual edit (`editingIndex` becomes 0)
and `saveEdit` commits it into the store — the edit entry points are not
gated on the refinement sentinel, contradicting the claim that no manual
edit can begin or commit while the sentinel is non-negative. -/
theorem doubleClick_edit_not_gated_during_refinement :
    (0 : Int) ≤ (EditorUI.mk 0 "m" (-1) "").llmProgress ∧
      runButtonDisabled (EditorUI.mk 0 "m" (-1) "") = true ∧
      saveButtonDisabled (EditorUI.mk 0 "m" (-1) "") = true ∧
      (onSubtitleDoubleClick (EditorUI.mk 0 "m" (-1) "") 0 ⟨0, 2, "A", none⟩).editingIndex = 0 ∧
      (onSubtitleDoubleClick (EditorUI.mk 0 "m" (-1) "") 0
        ⟨0, 2, "A", none⟩).editValue = "A" ∧
      saveEdit exSentences 0 "edited" =
        [⟨0, 2, "edited", some "A"⟩, ⟨2, 5, "B", none⟩, ⟨6, 8, "C", none⟩] := by
  refine ⟨by decide, by decide, by decide, by decide, by decide, ?_⟩
  decide

/-- JavaScript `x || d` on an optional number field: absent (`undefined`) or
`0` falls back to `d`. -/
def jsNumOr (x : Option ℚ) (d : ℚ) : ℚ :=
  match x with
  | some v => if v = 0 then d else v
  | none => d

/-- JavaScript `s || d` on an optional string field: absent or empty falls
back to `d`. -/
def jsStrOr (x : Option String) (d : String) : String :=
  match x with
  | some s => if s = "" then d else s
  | none => d

/-- JavaScript `x >= d` on an optional number: `undefined >= d` is false. -/
def jsGe (x : Option ℚ) (d : ℚ) : Bool :=
  match x with
  | some v => d ≤ v
  | none => false

/-- One server-sent progress event (spec §3 ProgressEvent): `percent`,
`message`, `done`; fields may be absent in the JSON payload. -/
structure ProgressEvent where
  percent : Option ℚ := none
  message : Option String := none
  done : Bool := false
deriving DecidableEq, Repr

/-- The Task representation returned by `GET /api/tasks/:id`, restricted to
the fields `fetchResult` reads. -/
structure TaskData where
  status : String
  sentences : Option (List Sentence) := none
  video_title : Option String := none
  error_message : Option String := none
  progress : Option ℚ := none
  progress_message : Option String := none
deriving DecidableEq, Repr

/-- Outcome of one `fetchWithAuth` round-trip inside `fetchResult`:
an HTTP response with a status-dependent body, a non-2xx status
(`!resp.ok`), or a thrown transport error. -/
inductive FetchResp where
  | ok (data : TaskData)
  | httpError (status : Nat)
  | netError (message : String)
deriving DecidableEq, Repr

/-- The SubSync component state touched by the progress subscriber and the
`fetchResult` fallback (SubSync.jsx lines 71-81). -/
structure SubSyncState where
  phase : String
  error : String
  taskId : Option String
  sentences : List Sentence
  videoTitle : String
  progress : ℚ
  progressMessage : String
deriving DecidableEq, Repr

/-- What the SSE handler asks the event loop to do next: keep the stream
open, close it and call `fetchResult`, or just close it. -/
inductive StreamCommand where
  | continueListening
  | closeAndFetch
  | closeOnly
deriving DecidableEq, Repr

/-- The `evtSource.onmessage` handler of `listenProgress` (SubSync.jsx lines
249-264): always display the event's own percent and message; on `done`,
close the stream and either fetch the full result (`percent >= 100`) or
surface the event's message as an error and fall back to the input phase. -/
def listenProgressOnMessage (st : SubSyncState) (data : ProgressEvent) :
    SubSyncState × StreamCommand :=
  let st1 := { st with
    progress := jsNumOr data.percent 0,
    progressMessage := jsStrOr data.message "" }
  if data.done then
    if jsGe data.percent 100 then (st1, .closeAndFetch)
    else ({ st1 with error := jsStrOr data.message "處理失敗", phase := "input" },
      .closeOnly)
  else (st1, .continueListening)

/-- The `evtSource.onerror` handler (SubSync.jsx lines 265-269): close the
stream and fall back to fetching the task directly; the component state is
not touched — in particular the task is not marked failed. -/
def listenProgressOnError (st : SubSyncState) : SubSyncState × StreamCommand :=
  (st, .closeAndFetch)

/-- One round of `fetchResult(tid)` (SubSync.jsx lines 272-306) applied to a
response.  The second component is the delay (ms) of the scheduled
re-fetch, `none` when no further fetch is scheduled.  (The `initPlayer` and
`fetchHistory` side effects live outside the modelled state.) -/
def fetchResultStep (st : SubSyncState) (tid : String) (resp : FetchResp) :
    SubSyncState × Option Nat :=
  match resp with
  | .httpError status =>
    let msg := if status = 404 then "任務不存在或已被刪除" else "載入結果失敗"
    ({ st with error := msg, phase := "input", taskId := none }, none)
  | .netError m =>
    ({ st with
        error := jsStrOr (some m) "無法載入結果"
        phase := "input"
        taskId := none }, none)
  | .ok data =>
    if data.status = "completed" ∧ data.sentences ≠ none then
      ({ st with
          sentences := data.sentences.getD []
          videoTitle := jsStrOr data.video_title ""
          taskId := some tid
          phase := "ready" }, none)
    else if data.status = "failed" then
      ({ st with
          error := jsStrOr data.error_message "處理失敗"
          phase := "input" }, none)
    else
      ({ st with
          taskId := some tid
          phase := "processing"
          progress := match data.progress with
            | some p => p
            | none => st.progress
          progressMessage := match data.progress_message with
            | some m => m
            | none => st.progressMessage }, some 2000)

/-- The polling loop spawned by `fetchResult`'s `setTimeout` chain: consume
successive responses until a round schedules no further fetch. -/
def fetchResultLoop (st : SubSyncState) (tid : String) :
    List FetchResp → SubSyncState
  | [] => st
  | r :: rs =>
    match fetchResultStep st tid r with
    | (st1, some _) => fetchResultLoop st1 tid rs
    | (st1, none) => st1

/-- Feed a list of progress events through the `onmessage` handler until it
closes the stream; returns the final state, the sequence of displayed
percent values (one per delivered event), and whether the stream is still
open afterwards. -/
def runProgressStream (st : SubSyncState) :
    List ProgressEvent → SubSyncState × List ℚ × Bool
  | [] => (st, [], true)
  | ev :: evs =>
    match listenProgressOnMessage st ev with
    | (st1, StreamCommand.continueListening) =>
      let rest := runProgressStream st1 evs
      (rest.1, st1.progress :: rest.2.1, rest.2.2)
    | (st1, _) => (st1, [st1.progress], false)

lemma fetchResultStep_retry_eq_2000 {st : SubSyncState} {tid : String}
    {r : FetchResp} {st1 : SubSyncState} {d : Nat}
    (h : fetchResultStep st tid r = (st1, some d)) : d = 2000 := by
  rcases r with data | status | m
  · simp only [fetchResultStep] at h
    split_ifs at h
    · exact absurd (congrArg Prod.snd h) (by simp)
    · exact absurd (congrArg Prod.snd h) (by simp)
    · have h2 := congrArg Prod.snd h
      simpa using h2.symm
  · exact absurd (congrArg Prod.snd h) (by simp [fetchResultStep])
  · exact absurd (congrArg Prod.snd h) (by simp [fetchResultStep])

/-- C4: when the progress stream breaks before `done`, the subscriber does
not mark the task failed: the `onerror` handler leaves the state untouched
and falls back to fetching the task directly.  A fetched task that is still
non-terminal puts the view in the processing phase and schedules a re-fetch
after the fixed 2000 ms delay; the polling loop repeats on every scheduled
round and stops at the first round that schedules nothing; every scheduled
delay is exactly 2000 ms; and a hard fetch error (non-2xx status such as
not-found, or a thrown transport error) surfaces a non-empty error, returns
to the input phase, clears the active task reference, and stops polling. -/
theorem progress_stream_error_falls_back_to_polling :
    (∀ st : SubSyncState,
        (listenProgressOnError st).1 = st ∧
        (listenProgressOnError st).2 = StreamCommand.closeAndFetch) ∧
    (∀ (st : SubSyncState) (tid : String) (data : TaskData),
        data.status ≠ "completed" → data.status ≠ "failed" →
        (fetchResultStep st tid (.ok data)).2 = some 2000 ∧
        (fetchResultStep st tid (.ok data)).1.phase = "processing" ∧
        (fetchResultStep st tid (.ok data)).1.taskId = some tid) ∧
    (∀ (st : SubSyncState) (tid : String) (status : Nat),
        (fetchResultStep st tid (.httpError status)).2 = none ∧
        (fetchResultStep st tid (.httpError status)).1.taskId = none ∧
        (fetchResultStep st tid (.httpError status)).1.error ≠ "" ∧
        (fetchResultStep st tid (.httpError status)).1.phase = "input") ∧
    (∀ (st : SubSyncState) (tid : String) (m : String),
        (fetchResultStep st tid (.netError m)).2 = none ∧
        (fetchResultStep st tid (.netError m)).1.taskId = none ∧
        (fetchResultStep st tid (.netError m)).1.phase = "input") ∧
    (∀ (st : SubSyncState) (tid : String) (r : FetchResp) (rs : List FetchResp),
        ((fetchResultStep st tid r).2 = none →
          fetchResultLoop st tid (r :: rs) = (fetchResultStep st tid r).1) ∧
        (∀ d, (fetchResultStep st tid r).2 = some d →
          d = 2000 ∧
          fetchResultLoop st tid (r :: rs) =
            fetchResultLoop (fetchResultStep st tid r).1 tid rs)) := by
  refine ⟨fun st => ⟨rfl, rfl⟩, ?_, ?_, fun st tid m => ⟨rfl, rfl, rfl⟩, ?_⟩
  · intro st tid data h1 h2
    have hc1 : ¬(data.status = "completed" ∧ data.sentences ≠ none) :=
      fun hc => h1 hc.1
    simp [fetchResultStep, if_neg hc1, if_neg h2]
  · intro st tid status
    refine ⟨rfl, rfl, ?_, rfl⟩
    show (if status = 404 then "任務不存在或已被刪除" else "載入結果失敗") ≠ ""
    by_cases h4 : status = 404
    · rw [if_pos h4]; decide
    · rw [if_neg h4]; decide
  · intro st tid r rs
    constructor
    · intro hnone
      rcases hr : fetchResultStep st tid r with ⟨st1, retry⟩
      rw [hr] at hnone
      simp only at hnone
      subst hnone
      simp only [fetchResultLoop]
      rw [hr]
    · intro d hsome
      rcases hr : fetchResultStep st tid r with ⟨st1, retry⟩
      rw [hr] at hsome
      simp only at hsome
      subst hsome
      refine ⟨fetchResultStep_retry_eq_2000 hr, ?_⟩
      simp only [fetchResultLoop]
      rw [hr]

/-- Witness for C4: a concrete non-terminal task response schedules a 2000 ms
re-fetch, and a concrete 404 surfaces a non-empty error. -/
theorem progress_stream_error_falls_back_to_polling_witness :
    ("processing" : String) ≠ "completed" ∧ ("processing" : String) ≠ "failed" ∧
      (fetchResultStep ⟨"processing", "", some "t1", [], "", 0, ""⟩ "t1"
        (.ok ⟨"processing", none, none, none, some 42, some "m"⟩)).2 = some 2000 ∧
      (fetchResultStep ⟨"processing", "", some "t1", [], "", 0, ""⟩ "t1"
        (.httpError 404)).1.error ≠ "" :=
  ⟨by decide, by decide,
    (progress_stream_error_falls_back_to_polling.2.1 _ "t1" _ (by decide) (by decide)).1,
    (progress_stream_error_falls_back_to_polling.2.2.1 _ "t1" 404).2.2.1⟩

/-- C8: after each progress event the displayed percent equals that event's
own percent value (no maximum over past values is computed), the stream
keeps listening exactly while events have `done = false`, and it stops
listening on a `done = true` event; on the event sequence
`[{40,false},{30,false},{100,true}]` the displayed values are 40, then 30,
then 100, with the stream closed only after the third event. -/
theorem progress_display_shows_each_event_value :
    (∀ (st : SubSyncState) (ev : ProgressEvent) (p : ℚ), ev.percent = some p →
        (listenProgressOnMessage st ev).1.progress = p) ∧
    (∀ (st : SubSyncState) (ev : ProgressEvent), ev.done = false →
        (listenProgressOnMessage st ev).2 = StreamCommand.continueListening) ∧
    (∀ (st : SubSyncState) (ev : ProgressEvent), ev.done = true →
        (listenProgressOnMessage st ev).2 ≠ StreamCommand.continueListening) ∧
    (∀ st : SubSyncState,
        (runProgressStream st
          [{ percent := some 40 }, { percent := some 30 },
            { percent := some 100, done := true }]).2.1 = [40, 30, 100] ∧
        (runProgressStream st
          [{ percent := some 40 }, { percent := some 30 },
            { percent := some 100, done := true }]).2.2 = false ∧
        (runProgressStream st
          [{ percent := some 40 }, { percent := some 30 }]).2.2 = true) := by
  refine ⟨?_, ?_, ?_, ?_⟩
  · intro st ev p hp
    simp only [listenProgressOnMessage, jsNumOr, hp]
    split_ifs <;> simp_all
  · intro st ev h
    simp [listenProgressOnMessage, h]
  · intro st ev h
    simp only [listenProgressOnMessage, h, if_true]
    split_ifs <;> simp
  · intro st
    refine ⟨?_, ?_, ?_⟩ <;>
      norm_num [runProgressStream, listenProgressOnMessage, jsNumOr, jsStrOr, jsGe]

/-- Witness for C8: starting from a state already displaying 40, a `{30}`
event drops the display to 30 (no max-clamping), and the example sequence
traces `[40, 30, 100]`. -/
theorem progress_display_shows_each_event_value_witness :
    ({ percent := some 30 : ProgressEvent }).percent = some 30 ∧
      (listenProgressOnMessage ⟨"processing", "", some "t", [], "", 40, ""⟩
        { percent := some 30 }).1.progress = 30 ∧
      (runProgressStream ⟨"processing", "", some "t", [], "", 0, ""⟩
        [{ percent := some 40 }, { percent := some 30 },
          { percent := some 100, done := true }]).2.1 = [40, 30, 100] :=
  ⟨rfl,
    progress_display_shows_each_event_value.1 _ _ 30 rfl,
    (progress_display_shows_each_event_value.2.2.2 _).1⟩


/-!
The Streaming Refinement Session's read loop (SubSync.jsx lines 471-514)
accumulates decoded chunks in `buffer`, splits on the blank-line frame
delimiter `'\n\n'` (JavaScript `buffer.split('\n\n')`), pops the last
(possibly incomplete) part back into `buffer`, and processes each complete
part: parts carrying the `'data: '` marker have their payload JSON-parsed,
parse failures being logged and skipped.  Strings are modelled as `List
Char` (the `TextDecoder` with `stream: true` reassembles code points across
chunk boundaries, so character granularity is faithful); the JSON parser is
an abstract `parse : List Char -> Option frame`.
-/

/-- JavaScript `buffer.split('\n\n')`: greedy leftmost split on the
two-newline separator, specialised to that separator. -/


def splitSep : List Char → List (List Char)
  | c1 :: c2 :: rest =>
    if c1 = '\n' ∧ c2 = '\n' then [] :: splitSep rest
    else (splitSep (c2 :: rest)).modifyHead (c1 :: ·)
  | [c] => [[c]]
  | [] => [[]]

lemma splitSep_ne_nil (s : List Char) : splitSep s ≠ [] := by
  induction s using splitSep.induct with
  | case1 c1 c2 rest h ih => simp [splitSep, h]
  | case2 c1 c2 rest h ih =>
    simp only [splitSep, if_neg h]
    rcases hsp : splitSep (c2 :: rest) with _ | ⟨a, t⟩
    · exact absurd hsp ih
    · simp
  | case3 c => simp [splitSep]
  | case4 => simp [splitSep]

lemma splitSep_singleton {s p : List Char} (h : splitSep s = [p]) : p = s := by
  induction s using splitSep.induct generalizing p with
  | case1 c1 c2 rest hc ih =>
    rw [splitSep, if_pos hc] at h
    have := splitSep_ne_nil rest
    cases hsp : splitSep rest <;> rw [hsp] at h <;> simp_all
  | case2 c1 c2 rest hc ih =>
    rw [splitSep, if_neg hc] at h
    rcases hsp : splitSep (c2 :: rest) with _ | ⟨a, t⟩
    · exact absurd hsp (splitSep_ne_nil _)
    · rw [hsp, List.modifyHead_cons] at h
      rcases t with _ | ⟨b, t'⟩
      · simp only [List.cons.injEq, and_true] at h
        have ha : a = c2 :: rest := ih hsp
        rw [← h, ha]
      · simp at h
  | case3 c =>
    rw [splitSep] at h
    simp only [List.cons.injEq, and_true] at h
    exact h.symm
  | case4 =>
    rw [splitSep] at h
    simp only [List.cons.injEq, and_true] at h
    exact h.symm

lemma splitSep_head_prefix {s h : List Char} {t : List (List Char)}
    (hs : splitSep s = h :: t) : ∃ u, s = h ++ u := by
  induction s using splitSep.induct generalizing h t with
  | case1 c1 c2 rest hc ih =>
    rw [splitSep, if_pos hc] at hs
    simp only [List.cons.injEq] at hs
    exact ⟨c1 :: c2 :: rest, by rw [← hs.1]; rfl⟩
  | case2 c1 c2 rest hc ih =>
    rw [splitSep, if_neg hc] at hs
    rcases hsp : splitSep (c2 :: rest) with _ | ⟨a, t'⟩
    · exact absurd hsp (splitSep_ne_nil _)
    · rw [hsp, List.modifyHead_cons] at hs
      simp only [List.cons.injEq] at hs
      obtain ⟨u, hu⟩ := ih hsp
      exact ⟨u, by rw [← hs.1]; simp [hu]⟩
  | case3 c =>
    rw [splitSep] at hs
    simp only [List.cons.injEq] at hs
    exact ⟨[], by rw [← hs.1]; simp⟩
  | case4 =>
    rw [splitSep] at hs
    simp only [List.cons.injEq] at hs
    exact ⟨[], by rw [← hs.1]; simp⟩

lemma splitSep_parts_sep_free {s : List Char} :
    ∀ p ∈ splitSep s, splitSep p = [p] := by
  induction s using splitSep.induct with
  | case1 c1 c2 rest hc ih =>
    rw [splitSep, if_pos hc]
    intro p hp
    rcases List.mem_cons.mp hp with rfl | hp2
    · rfl
    · exact ih p hp2
  | case2 c1 c2 rest hc ih =>
    rw [splitSep, if_neg hc]
    intro p hp
    rcases hsp : splitSep (c2 :: rest) with _ | ⟨a, t⟩
    · exact absurd hsp (splitSep_ne_nil _)
    · rw [hsp, List.modifyHead_cons] at hp
      rcases List.mem_cons.mp hp with rfl | hp2
      · have ha : splitSep a = [a] := ih a (by rw [hsp]; exact List.mem_cons_self a t)
        rcases a with _ | ⟨a1, a''⟩
        · rfl
        · obtain ⟨u, hu⟩ := splitSep_head_prefix hsp
          rw [List.cons_append] at hu
          have hc2 : c2 = a1 := by injection hu with h1 h2
          have hcond : ¬(c1 = '\n' ∧ a1 = '\n') :=
            fun hx => hc ⟨hx.1, by rw [hc2]; exact hx.2⟩
          rw [splitSep, if_neg hcond, ha, List.modifyHead_cons]
      · exact ih p (by rw [hsp]; exact List.mem_cons_of_mem a hp2)
  | case3 c =>
    intro p hp
    rw [splitSep] at hp
    rcases List.mem_cons.mp hp with rfl | hp2
    · rfl
    · simp at hp2
  | case4 =>
    intro p hp
    rw [splitSep] at hp
    rcases List.mem_cons.mp hp with rfl | hp2
    · rfl
    · simp at hp2

lemma splitSep_append (a b : List Char) :
    splitSep (a ++ b) =
      (splitSep a).dropLast ++ splitSep ((splitSep a).getLastD [] ++ b) := by
  induction a using splitSep.induct with
  | case1 c1 c2 rest hc ih =>
    have eqA : splitSep (c1 :: c2 :: rest) = [] :: splitSep rest := by
      rw [splitSep, if_pos hc]
    have eqAB : splitSep (c1 :: c2 :: (rest ++ b)) = [] :: splitSep (rest ++ b) := by
      rw [splitSep, if_pos hc]
    simp only [List.cons_append]
    rw [eqAB, eqA, ih]
    rcases hsp : splitSep rest with _ | ⟨h, t⟩
    · exact absurd hsp (splitSep_ne_nil _)
    · simp only [List.getLastD_cons, List.dropLast_cons₂, List.cons_append]
  | case2 c1 c2 rest hc ih =>
    have eqA : splitSep (c1 :: c2 :: rest) =
        (splitSep (c2 :: rest)).modifyHead (c1 :: ·) := by
      rw [splitSep, if_neg hc]
    have eqAB : splitSep (c1 :: c2 :: (rest ++ b)) =
        (splitSep (c2 :: (rest ++ b))).modifyHead (c1 :: ·) := by
      rw [splitSep, if_neg hc]
    simp only [List.cons_append] at ih ⊢
    rw [eqAB, eqA, ih]
    rcases hsp : splitSep (c2 :: rest) with _ | ⟨h, t⟩
    · exact absurd hsp (splitSep_ne_nil _)
    · rcases t with _ | ⟨t1, t''⟩
      · have hh : h = c2 :: rest := splitSep_singleton hsp
        subst hh
        simp only [List.modifyHead_cons, List.dropLast_single, List.getLastD_cons,
          List.getLastD_nil, List.dropLast_nil, List.nil_append, List.cons_append]
        rw [eqAB]
      · simp only [List.modifyHead_cons, List.dropLast_cons₂, List.getLastD_cons,
          List.cons_append]
  | case3 c =>
    simp [splitSep]
  | case4 =>
    simp [splitSep]

def dataMarker : List Char := "data: ".toList

def processPart {α : Type} (parse : List Char → Option α) (part : List Char) :
    Option α :=
  if dataMarker.isPrefixOf part then parse (part.drop dataMarker.length) else none

def handleLlmChunkStep {α : Type} (parse : List Char → Option α)
    (buffer chunk : List Char) : List Char × List α :=
  let parts := splitSep (buffer ++ chunk)
  (parts.getLastD [], parts.dropLast.filterMap (processPart parse))

def handleLlmRun {α : Type} (parse : List Char → Option α) (buffer : List Char) :
    List (List Char) → List Char × List α
  | [] => (buffer, [])
  | chunk :: chunks =>
    let step := handleLlmChunkStep parse buffer chunk
    let rest := handleLlmRun parse step.1 chunks
    (rest.1, step.2 ++ rest.2)

lemma getLastD_mem {α : Type} {l : List α} (h : l ≠ []) (d : α) :
    l.getLastD d ∈ l := by
  induction l generalizing d with
  | nil => exact absurd rfl h
  | cons a l ih =>
    rw [List.getLastD_cons]
    cases l with
    | nil => simp
    | cons b l' => exact List.mem_cons_of_mem a (ih (by simp) a)

lemma getLastD_append {α : Type} (X : List α) {Y : List α} (h : Y ≠ []) (d : α) :
    (X ++ Y).getLastD d = Y.getLastD d := by
  rw [List.getLastD_eq_getLast?, List.getLastD_eq_getLast?,
    List.getLast?_append_of_ne_nil _ h]

lemma handleLlmRun_eq_of_sep_free {α : Type} (parse : List Char → Option α) :
    ∀ (chunks : List (List Char)) (buffer : List Char),
      splitSep buffer = [buffer] →
      handleLlmRun parse buffer chunks =
        ((splitSep (buffer ++ chunks.flatten)).getLastD [],
          (splitSep (buffer ++ chunks.flatten)).dropLast.filterMap
            (processPart parse)) := by
  intro chunks
  induction chunks with
  | nil =>
    intro buffer hb
    simp [handleLlmRun, hb]
  | cons chunk chunks ih =>
    intro buffer hb
    have hPne : splitSep (buffer ++ chunk) ≠ [] := splitSep_ne_nil _
    have hb1 : splitSep ((splitSep (buffer ++ chunk)).getLastD []) =
        [(splitSep (buffer ++ chunk)).getLastD []] :=
      splitSep_parts_sep_free _ (getLastD_mem hPne [])
    have hQne : splitSep
        ((splitSep (buffer ++ chunk)).getLastD [] ++ chunks.flatten) ≠ [] :=
      splitSep_ne_nil _
    show ((handleLlmRun parse ((splitSep (buffer ++ chunk)).getLastD []) chunks).1,
        (splitSep (buffer ++ chunk)).dropLast.filterMap (processPart parse) ++
          (handleLlmRun parse ((splitSep (buffer ++ chunk)).getLastD []) chunks).2) = _
    rw [ih _ hb1]
    have hL5 : splitSep (buffer ++ (chunk :: chunks).flatten) =
        (splitSep (buffer ++ chunk)).dropLast ++
          splitSep ((splitSep (buffer ++ chunk)).getLastD [] ++ chunks.flatten) := by
      have hassoc : buffer ++ (chunk :: chunks).flatten =
          (buffer ++ chunk) ++ chunks.flatten := by
        simp [List.append_assoc]
      rw [hassoc, splitSep_append]
    rw [hL5, getLastD_append _ hQne, List.dropLast_append_of_ne_nil _ hQne,
      List.filterMap_append]

/-- C6: for every abstract frame parser, every response stream, and every way
of splitting that stream into read chunks, the consumer's buffered read loop
emits exactly the frames of the whole stream: the parsed payloads of the
complete delimiter-terminated parts that carry the data marker, in order,
with the trailing incomplete part left in the buffer — independently of the
chunk boundaries.  Moreover a part whose payload fails to parse is merely
skipped: the remaining frames are processed as if it were absent, so the
loop continues to the next frame. -/
theorem llm_stream_buffering_parses_frames_in_order :
    (∀ (α : Type) (parse : List Char → Option α) (chunks : List (List Char)),
        handleLlmRun parse [] chunks =
          ((splitSep chunks.flatten).getLastD [],
            (splitSep chunks.flatten).dropLast.filterMap (processPart parse))) ∧
    (∀ (α : Type) (parse : List Char → Option α) (pre post : List (List Char))
        (bad : List Char),
        parse (bad.drop dataMarker.length) = none →
        (pre ++ bad :: post).filterMap (processPart parse) =
          (pre ++ post).filterMap (processPart parse)) := by
  constructor
  · intro α parse chunks
    have h := handleLlmRun_eq_of_sep_free parse chunks [] rfl
    simpa using h
  · intro α parse pre post bad hbad
    have hnone : processPart parse bad = none := by
      unfold processPart
      split_ifs with h
      · exact hbad
      · rfl
    simp only [List.filterMap_append, List.filterMap_cons, hnone]

/-- A concrete frame parser for the C6 witness: payload `"o"` parses to the
frame `1`, everything else is malformed. -/
def exParse : List Char → Option Nat :=
  fun l => if l = ['o'] then some 1 else none

/-- Concrete read chunks for the C6 witness; the second frame's marker is
split across two reads. -/
def exChunks : List (List Char) :=
  ["data: o\n".toList, "\ndata".toList, ": x\n\n".toList]

/-- Witness for C6: on chunks that split a frame across read boundaries the
loop emits exactly the one well-formed frame (the malformed `"x"` payload is
skipped), and the skip property holds at a concrete malformed part. -/
theorem llm_stream_buffering_parses_frames_in_order_witness :
    handleLlmRun exParse [] exChunks =
      ((splitSep exChunks.flatten).getLastD [],
        (splitSep exChunks.flatten).dropLast.filterMap (processPart exParse)) ∧
      (handleLlmRun exParse [] exChunks).2 = [1] ∧
      exParse ("data: x".toList.drop dataMarker.length) = none ∧
      (["data: o".toList] ++ "data: x".toList :: []).filterMap (processPart exParse) =
        (["data: o".toList] ++ []).filterMap (processPart exParse) :=
  ⟨llm_stream_buffering_parses_frames_in_order.1 Nat exParse exChunks,
    by decide,
    by decide,
    llm_stream_buffering_parses_frames_in_order.2 Nat exParse ["data: o".toList] []
      "data: x".toList (by decide)⟩
